import Mathlib

/-!
Shallow embedding of `convert_movies.py`: a batch transform that reads a list
of movie entries, derives a slug for each (with per-base-slug disambiguation
counters), transliterates Cyrillic director names, and emits normalized
records.  Machine strings are Lean `String`/`List Char`; Python integers are
`Int`; JSON field values are `JValue`; code that can raise is modelled with
`Except`.  All recursive functions are structurally recursive so that
concrete runs reduce inside the kernel.
-/

/-- Characters of the slug alphabet `[a-z0-9]` (the regex character class of
`re.sub(r"[^a-z0-9]+", "-", ...)` in `slugify`). -/
def isSlugChar (c : Char) : Bool :=
  ('a' ≤ c && c ≤ 'z') || ('0' ≤ c && c ≤ '9')

/-- ASCII whitespace recognised by Python's `str.strip()` / `int()` (the
source only ever strips ASCII content at these points). -/
def isPyWS (c : Char) : Bool :=
  c = ' ' || c = '\t' || c = '\n' || c = '\r' || c = '\x0b' || c = '\x0c'

/-- ASCII lowercasing; `str.lower()` in the source is only applied to strings
that have already been folded to ASCII, where it acts exactly like this. -/
def asciiLower (c : Char) : Char :=
  if 'A' ≤ c && c ≤ 'Z' then Char.ofNat (c.toNat + 32) else c

/-- Decimal digit character for a value below 10. -/
def digitCh (d : Nat) : Char := Char.ofNat (48 + d)

/-- Python `str.strip(chars)`: drop characters satisfying `p` from both ends. -/
def stripEnds (p : Char → Bool) (l : List Char) : List Char :=
  ((l.dropWhile p).reverse.dropWhile p).reverse

/-- Scanner for Python `str.replace(pat, rep)` (left-to-right, non-overlapping);
the `Nat` argument counts characters still to skip from an earlier match. -/
def leadsWith : List Char → List Char → Bool
  | [], _ => true
  | _ :: _, [] => false
  | p :: ps, c :: cs => p = c && leadsWith ps cs

/-- Replacement scan behind `replaceTok`; only used with non-empty patterns. -/
def replaceScan (pat rep : List Char) : List Char → Nat → List Char
  | [], _ => []
  | _ :: rest, skip + 1 => replaceScan pat rep rest skip
  | c :: rest, 0 =>
    if leadsWith pat (c :: rest) then
      rep ++ replaceScan pat rep rest (pat.length - 1)
    else
      c :: replaceScan pat rep rest 0

/-- Python `s.replace(pat, rep)` for a non-empty pattern. -/
def replaceTok (pat rep s : List Char) : List Char := replaceScan pat rep s 0

/-- Python `s.split(",")`: always returns at least one (possibly empty) piece. -/
def splitOnComma : List Char → List (List Char)
  | [] => [[]]
  | c :: rest =>
    if c = ',' then [] :: splitOnComma rest
    else
      match splitOnComma rest with
      | g :: gs => (c :: g) :: gs
      | [] => [[c]]

/-- Worker for `collapse`; the flag records whether the previous character was
part of a run of non-slug characters whose hyphen has already been emitted. -/
def collapseAux : Bool → List Char → List Char
  | _, [] => []
  | inRun, c :: rest =>
    if isSlugChar c then c :: collapseAux false rest
    else if inRun then collapseAux true rest
    else '-' :: collapseAux true rest

/-- `re.sub(r"[^a-z0-9]+", "-", s)`: every maximal run of characters outside
`[a-z0-9]` becomes a single hyphen. -/
def collapse (l : List Char) : List Char := collapseAux false l

/-- Maximal runs of slug characters of a string, in order (used by the
spec-worded variant of the slug algorithm). -/
def alnumRuns : List Char → List (List Char)
  | [] => []
  | [c] => if isSlugChar c then [[c]] else []
  | c :: d :: rest =>
    if isSlugChar c then
      if isSlugChar d then
        match alnumRuns (d :: rest) with
        | r :: rs => (c :: r) :: rs
        | [] => [[c]]
      else [c] :: alnumRuns (d :: rest)
    else alnumRuns (d :: rest)

/-- Join character groups with single hyphens (no outer hyphens). -/
def joinDash : List (List Char) → List Char
  | [] => []
  | [g] => g
  | g :: g2 :: gs => g ++ '-' :: joinDash (g2 :: gs)

/-- Check that no two consecutive characters are both hyphens. -/
def noDoubleDash : List Char → Bool
  | [] => true
  | [_] => true
  | c :: d :: rest => !(c = '-' && d = '-') && noDoubleDash (d :: rest)

/-- First character exists and is in the slug alphabet. -/
def headSlug (l : List Char) : Bool :=
  match l.head? with
  | some c => isSlugChar c
  | none => false

/-- Last character exists and is in the slug alphabet. -/
def lastSlug (l : List Char) : Bool :=
  match l.getLast? with
  | some c => isSlugChar c
  | none => false

/-- Boolean pattern check for `[a-z0-9]+(-[a-z0-9]+)*`: non-empty, only slug
characters and hyphens, no hyphen at either end, no two adjacent hyphens.
The optional `(-N)?` disambiguation suffix of the spec's pattern is a further
hyphen-separated group of digits, so it is covered by this pattern. -/
def slugLike (s : String) : Bool :=
  !s.data.isEmpty &&
  s.data.all (fun d => isSlugChar d || d = '-') &&
  headSlug s.data && lastSlug s.data && noDoubleDash s.data

/-- Little-endian decimal digits, fuel-guarded so that the recursion is
structural; the fuel is always instantiated with the number itself. -/
def natDigitsF : Nat → Nat → List Nat
  | _, 0 => []
  | 0, _ + 1 => []
  | fuel + 1, n + 1 => ((n + 1) % 10) :: natDigitsF fuel ((n + 1) / 10)

/-- Little-endian decimal digits of a natural number. -/
def natDigitsLE (n : Nat) : List Nat := natDigitsF n n

/-- Value of a little-endian digit list (inverse of `natDigitsLE`). -/
def ofDigitsLE : List Nat → Nat
  | [] => 0
  | d :: ds => d + 10 * ofDigitsLE ds

/-- Python `str(n)` for a non-negative integer. -/
def pyNatRepr (n : Nat) : String :=
  if n = 0 then "0" else String.mk ((natDigitsLE n).reverse.map digitCh)

/-- Python `str(n)` for an integer (f-string rendering of `year` and of the
occurrence counter in the source). -/
def pyIntRepr : Int → String
  | .ofNat n => pyNatRepr n
  | .negSucc n => "-" ++ pyNatRepr (n + 1)

/-- Value of an ASCII decimal digit character. -/
def pyDigit? (c : Char) : Option Nat :=
  if '0' ≤ c && c ≤ '9' then some (c.toNat - 48) else none

/-- Tail of Python's `int()` digit grammar: digits with single underscores
allowed between digits. -/
def digitsTail : Nat → List Char → Option Nat
  | acc, [] => some acc
  | acc, '_' :: c :: rest =>
    (match pyDigit? c with
     | some d => digitsTail (acc * 10 + d) rest
     | none => none)
  | _, '_' :: [] => none
  | acc, c :: rest =>
    (match pyDigit? c with
     | some d => digitsTail (acc * 10 + d) rest
     | none => none)

/-- Non-empty digit sequence of Python's `int()` grammar. -/
def startDigits : List Char → Option Nat
  | [] => none
  | c :: rest =>
    match pyDigit? c with
    | some d => digitsTail d rest
    | none => none

/-- Python `int(s)` on a string: optional surrounding whitespace, optional
sign, non-empty ASCII digit sequence (underscore separators allowed); `none`
models `ValueError`.  Non-ASCII digits are outside this model. -/
def pyInt? (s : String) : Option Int :=
  match stripEnds isPyWS s.data with
  | '+' :: rest => (startDigits rest).map (fun n => (n : Int))
  | '-' :: rest => (startDigits rest).map (fun n => -(n : Int))
  | l => (startDigits l).map (fun n => (n : Int))

/-- Finite fragment of the composite `unicodedata.normalize("NFKD", s)`
followed by `encode("ascii", "ignore")` used by `slugify`: an ASCII character
is kept as is; a character listed here leaves the given ASCII remnant; every
other non-ASCII character leaves nothing.  The default is exact for all
Cyrillic letters (their decompositions contain no ASCII) and for non-ASCII
characters without a compatibility decomposition. -/
def NFKD_ASCII : List (Char × String) := [
  ('À', "A"), ('Á', "A"), ('Â', "A"), ('Ã', "A"),
  ('Ä', "A"), ('Å', "A"), ('Ç', "C"), ('È', "E"),
  ('É', "E"), ('Ê', "E"), ('Ë', "E"), ('Ì', "I"),
  ('Í', "I"), ('Î', "I"), ('Ï', "I"), ('Ñ', "N"),
  ('Ò', "O"), ('Ó', "O"), ('Ô', "O"), ('Õ', "O"),
  ('Ö', "O"), ('Ù', "U"), ('Ú', "U"), ('Û', "U"),
  ('Ü', "U"), ('Ý', "Y"),
  ('à', "a"), ('á', "a"), ('â', "a"), ('ã', "a"),
  ('ä', "a"), ('å', "a"), ('ç', "c"), ('è', "e"),
  ('é', "e"), ('ê', "e"), ('ë', "e"), ('ì', "i"),
  ('í', "i"), ('î', "i"), ('ï', "i"), ('ñ', "n"),
  ('ò', "o"), ('ó', "o"), ('ô', "o"), ('õ', "o"),
  ('ö', "o"), ('ù', "u"), ('ú', "u"), ('û', "u"),
  ('ü', "u"), ('ý', "y"), ('ÿ', "y"),
  ('Ć', "C"), ('ć', "c"), ('Č', "C"), ('č', "c"),
  ('Š', "S"), ('š', "s"), ('Ž', "Z"), ('ž', "z"),
  ('¹', "1"), ('²', "2"), ('³', "3"),
  ('ﬁ', "fi"), ('ﬂ', "fl")]

/-- ASCII remnant of one character under NFKD decomposition followed by
dropping of non-ASCII bytes. -/
def asciiFoldChar (c : Char) : List Char :=
  if c.toNat < 128 then [c]
  else
    match NFKD_ASCII.lookup c with
    | some s => s.data
    | none => []

/-- `unicodedata.normalize("NFKD", s).encode("ascii", "ignore").decode("ascii")`. -/
def asciiFold (s : String) : List Char := (s.data.map asciiFoldChar).flatten

/-- The fixed Cyrillic-to-Latin table `CYRILLIC_MAP` of the source, with the
same code points and the same replacement strings. -/
def CYRILLIC_MAP : List (Char × String) := [
  ('А', "A"), ('а', "a"),
  ('Б', "B"), ('б', "b"),
  ('В', "V"), ('в', "v"),
  ('Г', "G"), ('г', "g"),
  ('Д', "D"), ('д', "d"),
  ('Е', "E"), ('е', "e"),
  ('Ё', "Yo"), ('ё', "yo"),
  ('Ж', "Zh"), ('ж', "zh"),
  ('З', "Z"), ('з', "z"),
  ('И', "I"), ('и', "i"),
  ('Й', "Y"), ('й', "y"),
  ('К', "K"), ('к', "k"),
  ('Л', "L"), ('л', "l"),
  ('М', "M"), ('м', "m"),
  ('Н', "N"), ('н', "n"),
  ('О', "O"), ('о', "o"),
  ('П', "P"), ('п', "p"),
  ('Р', "R"), ('р', "r"),
  ('С', "S"), ('с', "s"),
  ('Т', "T"), ('т', "t"),
  ('У', "U"), ('у', "u"),
  ('Ф', "F"), ('ф', "f"),
  ('Х', "Kh"), ('х', "kh"),
  ('Ц', "Ts"), ('ц', "ts"),
  ('Ч', "Ch"), ('ч', "ch"),
  ('Ш', "Sh"), ('ш', "sh"),
  ('Щ', "Shch"), ('щ', "shch"),
  ('Ъ', ""), ('ъ', ""),
  ('Ы', "Y"), ('ы', "y"),
  ('Ь', ""), ('ь', ""),
  ('Э', "E"), ('э', "e"),
  ('Ю', "Yu"), ('ю', "yu"),
  ('Я', "Ya"), ('я', "ya"),
  ('Ә', "A"), ('ә', "a"),
  ('Ө', "O"), ('ө', "o")]

/-- Replacement of one character under `str.translate(TRANS_TABLE)`. -/
def translitChar (c : Char) : String :=
  match CYRILLIC_MAP.lookup c with
  | some r => r
  | none => String.singleton c

/-- `transliterate` from the source: falsy input short-circuits to the empty
string, otherwise each character is replaced through the table. -/
def transliterate (text : String) : String :=
  if text = "" then "" else String.join (text.data.map translitChar)

/-- `slugify` from the source: ASCII-fold the title, lowercase it, turn every
maximal run of non-`[a-z0-9]` characters into one hyphen, strip outer
hyphens, fall back to `"film"` when empty, and append the year rendered by
the f-string when it is non-zero. -/
def slugify (title : String) (year : Int) : String :=
  let a1 := (asciiFold title).map asciiLower
  let a2 := stripEnds (fun c => c = '-') (collapse a1)
  let a3 := if a2 = [] then "film".data else a2
  if year = 0 then String.mk a3 else String.mk a3 ++ "-" ++ pyIntRepr year

/-- Modelled from the spec: the four-step reference slug algorithm of §4.2,
with step 2 worded as keeping the maximal `[a-z0-9]` runs joined by single
hyphens; steps 1, 3 and 4 as written there. -/
def slugifySpec (title : String) (year : Int) : String :=
  let folded := (asciiFold title).map asciiLower
  let s0 := joinDash (alnumRuns folded)
  let s1 := if s0 = [] then "film".data else s0
  if year = 0 then String.mk s1 else String.mk s1 ++ "-" ++ pyIntRepr year

/-- JSON-like field value of an input record; `jnull` stands both for a JSON
null and for an absent key (`dict.get` yields `None` in both cases).
Floating point numbers are outside the model. -/
inductive JValue where
  | jnull : JValue
  | jbool : Bool → JValue
  | jint : Int → JValue
  | jstr : String → JValue
  deriving DecidableEq, Repr

/-- Python truthiness of a field value. -/
def JValue.truthy : JValue → Bool
  | .jnull => false
  | .jbool b => b
  | .jint n => n != 0
  | .jstr s => s != ""

/-- Python `str(value)` on a field value. -/
def JValue.pyStr : JValue → String
  | .jnull => "None"
  | .jbool b => if b then "True" else "False"
  | .jint n => pyIntRepr n
  | .jstr s => s

/-- `parse_int` from the source: `int(str(value))`, with `0` on failure. -/
def parse_int (value : JValue) : Int :=
  match pyInt? value.pyStr with
  | some n => n
  | none => 0

/-- Characters stripped from each director piece: `" \t\r\n."`. -/
def dirStripChar (c : Char) : Bool :=
  c = ' ' || c = '\t' || c = '\r' || c = '\n' || c = '.'

/-- The delimiter tokens replaced by commas, in the source's order. -/
def DELIMS : List (List Char) := [" & ".data, " and ".data, ";".data, "/".data, "|".data]

/-- Core of `parse_directors` on an actual string: transliterate, normalize
delimiters to commas, split, strip each piece, keep the non-empty pieces. -/
def parse_directors_str (s : String) : List String :=
  let cleaned := (transliterate s).data
  let cleaned := DELIMS.foldl (fun acc tok => replaceTok tok [','] acc) cleaned
  let parts := (splitOnComma cleaned).map (fun part => stripEnds dirStripChar part)
  (parts.filter (fun part => !part.isEmpty)).map String.mk

/-- Whitespace of the director-piece cleanup (space, tab, CR, LF, the
whitespace characters involved in that step). -/
def isDirWS (c : Char) : Bool :=
  c = ' ' || c = '\t' || c = '\r' || c = '\n'

/-- Modelled from the spec: §4.3's per-piece cleanup taken at its words —
strip leading/trailing whitespace and *trailing* periods; a leading period
is kept (unlike the source's `strip(" \t\r\n.")`, which strips periods from
both ends). -/
def specStripPiece (piece : List Char) : List Char :=
  ((piece.dropWhile isDirWS).reverse.dropWhile (fun c => isDirWS c || c = '.')).reverse

/-- Modelled from the spec: the §4.3 director algorithm as written —
transliterate, normalize the five delimiters to commas, split on commas,
clean each piece with `specStripPiece`, drop pieces that become empty,
preserve order. -/
def specParseDirectors (s : String) : List String :=
  let cleaned := (transliterate s).data
  let cleaned := DELIMS.foldl (fun acc tok => replaceTok tok [','] acc) cleaned
  (splitOnComma cleaned).filterMap (fun piece =>
    let t := specStripPiece piece
    if t.isEmpty then none else some (String.mk t))

/-- Modelled from the spec as amended by the `".John"` counterexample: the
§4.3 algorithm with periods stripped from both ends of each piece — the only
change the counterexample forces. -/
def specParseDirectorsAmended (s : String) : List String :=
  let cleaned := (transliterate s).data
  let cleaned := DELIMS.foldl (fun acc tok => replaceTok tok [','] acc) cleaned
  (splitOnComma cleaned).filterMap (fun piece =>
    let t := ((piece.dropWhile (fun c => isDirWS c || c = '.')).reverse.dropWhile
      (fun c => isDirWS c || c = '.')).reverse
    if t.isEmpty then none else some (String.mk t))

/-- `parse_directors` applied to the raw field value: `raw or ""` turns any
falsy value into the empty string; a truthy non-string has no `.translate`
and raises (modelled as `Except.error`). -/
def parse_directors (raw : JValue) : Except String (List String) :=
  if raw.truthy then
    match raw with
    | .jstr s => .ok (parse_directors_str s)
    | _ => .error "AttributeError: translate"
  else .ok (parse_directors_str "")

/-- One input record; all five fields optional, `jnull` meaning absent. -/
structure Entry where
  name : JValue
  originalName : JValue
  yearProduced : JValue
  yearAdded : JValue
  director : JValue
  deriving DecidableEq, Repr

/-- One output record, with all the placeholder fields of the target schema. -/
structure OutputRecord where
  slug : String
  title : String
  releaseYear : Int
  registryYear : Int
  directors : List String
  cast : List String
  runtimeMinutes : Int
  genres : List String
  logline : String
  summary : String
  whyImportant : String
  watchUrl : String
  image : String
  deriving DecidableEq, Repr, Inhabited

/-- The value selected by `entry.get("originalName") or entry.get("name") or ""`. -/
def selectTitleValue (e : Entry) : JValue :=
  if e.originalName.truthy then e.originalName
  else if e.name.truthy then e.name
  else .jstr ""

/-- Title resolution `(... or ... or "").strip()`; a truthy non-string value
has no `.strip` and raises. -/
def resolveTitle (e : Entry) : Except String String :=
  match selectTitleValue e with
  | .jstr s => .ok (String.mk (stripEnds isPyWS s.data))
  | _ => .error "AttributeError: strip"

/-- One iteration of the main loop: resolve the title, skip when it is empty,
otherwise compute the slug, bump the per-base counter and build the record. -/
def step (counts : String → Nat) (e : Entry) :
    Except String ((String → Nat) × Option OutputRecord) :=
  match resolveTitle e with
  | .error m => .error m
  | .ok title =>
    let release_year := parse_int e.yearProduced
    if title = "" then .ok (counts, none)
    else
      let base_slug := slugify title release_year
      let occurrence := counts base_slug
      let counts' := fun s => if s = base_slug then occurrence + 1 else counts s
      let slug := if occurrence = 0 then base_slug
                  else base_slug ++ "-" ++ pyNatRepr (occurrence + 1)
      match parse_directors e.director with
      | .error m => .error m
      | .ok dirs =>
        .ok (counts', some ⟨slug, title, release_year, parse_int e.yearAdded,
          dirs, [], 0, [], "", "", "", "", ""⟩)

/-- The main loop over all entries, threading the slug counters. -/
def runFold : List Entry → (String → Nat) → Except String (List OutputRecord × (String → Nat))
  | [], counts => .ok ([], counts)
  | e :: rest, counts =>
    match step counts e with
    | .error m => .error m
    | .ok (counts', none) => runFold rest counts'
    | .ok (counts', some r) =>
      match runFold rest counts' with
      | .error m => .error m
      | .ok (recs, countsF) => .ok (r :: recs, countsF)

/-- The whole pipeline on an input list, starting from empty counters. -/
def convertMovies (es : List Entry) : Except String (List OutputRecord) :=
  (runFold es (fun _ => 0)).map Prod.fst

/-- Output records of a run (empty when the run raises). -/
def recsOf (es : List Entry) : List OutputRecord :=
  match convertMovies es with
  | .ok rs => rs
  | .error _ => []

/-- Output slugs of a run, in output order. -/
def slugsOf (es : List Entry) : List String := (recsOf es).map OutputRecord.slug

/-! ### Decimal rendering: correctness and injectivity -/

theorem strMk_inj {a b : List Char} (h : String.mk a = String.mk b) : a = b := by
  simpa using congrArg String.data h

theorem ofDigitsLE_natDigitsF : ∀ (fuel n : Nat), n ≤ fuel →
    ofDigitsLE (natDigitsF fuel n) = n
  | _, 0, _ => by simp [natDigitsF, ofDigitsLE]
  | 0, m + 1, h => by omega
  | fuel + 1, m + 1, h => by
    have hlt : (m + 1) / 10 < m + 1 := Nat.div_lt_self (Nat.succ_pos m) (by omega)
    have hrec := ofDigitsLE_natDigitsF fuel ((m + 1) / 10) (by omega)
    simp only [natDigitsF, ofDigitsLE, hrec]
    omega

theorem natDigitsLE_roundtrip (n : Nat) : ofDigitsLE (natDigitsLE n) = n :=
  ofDigitsLE_natDigitsF n n (Nat.le_refl n)

theorem natDigitsLE_inj {m n : Nat} (h : natDigitsLE m = natDigitsLE n) : m = n := by
  have := natDigitsLE_roundtrip m
  rw [h, natDigitsLE_roundtrip n] at this
  omega

theorem natDigitsF_mem_lt : ∀ (fuel n d : Nat), d ∈ natDigitsF fuel n → d < 10
  | _, 0, d, h => by simp [natDigitsF] at h
  | 0, _ + 1, d, h => by simp [natDigitsF] at h
  | fuel + 1, m + 1, d, h => by
    simp only [natDigitsF, List.mem_cons] at h
    rcases h with h | h
    · omega
    · exact natDigitsF_mem_lt fuel ((m + 1) / 10) d h

theorem natDigitsLE_ne_nil {n : Nat} (h : n ≠ 0) : natDigitsLE n ≠ [] := by
  match n, h with
  | m + 1, _ => simp [natDigitsLE, natDigitsF]

theorem digitCh_inj : ∀ a, a < 10 → ∀ b, b < 10 → digitCh a = digitCh b → a = b := by
  decide

theorem digitCh_slug : ∀ d, d < 10 → isSlugChar (digitCh d) = true := by
  decide

theorem mapDigit_inj : ∀ (as : List Nat), (∀ a ∈ as, a < 10) →
    ∀ (bs : List Nat), (∀ b ∈ bs, b < 10) →
    as.map digitCh = bs.map digitCh → as = bs
  | [], _, [], _, _ => rfl
  | [], _, _ :: _, _, h => by simp at h
  | _ :: _, _, [], _, h => by simp at h
  | a :: as, ha, b :: bs, hb, h => by
    simp only [List.map_cons, List.cons.injEq] at h
    have h1 : a = b :=
      digitCh_inj a (ha a (by simp)) b (hb b (by simp)) h.1
    have h2 : as = bs :=
      mapDigit_inj as (fun x hx => ha x (by simp [hx])) bs (fun x hx => hb x (by simp [hx])) h.2
    simp [h1, h2]

theorem pyNatRepr_inj : ∀ {m n : Nat}, pyNatRepr m = pyNatRepr n → m = n := by
  intro m n h
  unfold pyNatRepr at h
  by_cases hm : m = 0 <;> by_cases hn : n = 0
  · omega
  · rw [if_pos hm, if_neg hn] at h
    have hd := strMk_inj (show String.mk ['0'] = _ from h)
    have : ∀ x ∈ (natDigitsLE n).reverse, x < 10 := by
      intro x hx
      exact natDigitsF_mem_lt n n x (List.mem_reverse.mp hx)
    have := mapDigit_inj [0] (by simp) (natDigitsLE n).reverse this (by simpa using hd)
    have hr : natDigitsLE n = [0] := by
      have := congrArg List.reverse this
      simpa using this.symm
    have := natDigitsLE_roundtrip n
    rw [hr] at this
    simp [ofDigitsLE] at this
    omega
  · rw [if_neg hm, if_pos hn] at h
    have hd := strMk_inj (show _ = String.mk ['0'] from h)
    have : ∀ x ∈ (natDigitsLE m).reverse, x < 10 := by
      intro x hx
      exact natDigitsF_mem_lt m m x (List.mem_reverse.mp hx)
    have := mapDigit_inj (natDigitsLE m).reverse this [0] (by simp) (by simpa using hd)
    have hr : natDigitsLE m = [0] := by
      have := congrArg List.reverse this
      simpa using this
    have := natDigitsLE_roundtrip m
    rw [hr] at this
    simp [ofDigitsLE] at this
    omega
  · rw [if_neg hm, if_neg hn] at h
    have hd := strMk_inj h
    have hma : ∀ x ∈ (natDigitsLE m).reverse, x < 10 := by
      intro x hx
      exact natDigitsF_mem_lt m m x (List.mem_reverse.mp hx)
    have hnb : ∀ x ∈ (natDigitsLE n).reverse, x < 10 := by
      intro x hx
      exact natDigitsF_mem_lt n n x (List.mem_reverse.mp hx)
    have := mapDigit_inj (natDigitsLE m).reverse hma (natDigitsLE n).reverse hnb hd
    have : natDigitsLE m = natDigitsLE n := by
      have := congrArg List.reverse this
      simpa using this
    exact natDigitsLE_inj this

theorem pyNatRepr_data_ne_nil (n : Nat) : (pyNatRepr n).data ≠ [] := by
  unfold pyNatRepr
  by_cases hn : n = 0
  · rw [if_pos hn]
    decide
  · rw [if_neg hn]
    intro h
    have := natDigitsLE_ne_nil hn
    simp at h
    exact this h

theorem pyNatRepr_all_slug (n : Nat) : ∀ c ∈ (pyNatRepr n).data, isSlugChar c = true := by
  unfold pyNatRepr
  by_cases hn : n = 0
  · rw [if_pos hn]
    decide
  · rw [if_neg hn]
    intro c hc
    simp only [List.mem_map, List.mem_reverse] at hc
    obtain ⟨d, hd, rfl⟩ := hc
    exact digitCh_slug d (natDigitsF_mem_lt n n d hd)

/-! ### Hyphen-collapse versus maximal alnum runs -/

theorem slug_ne_dash {c : Char} (h : isSlugChar c = true) : c ≠ '-' := by
  intro hEq
  subst hEq
  exact absurd h (by decide)

theorem dropWhile_len_le (p : Char → Bool) : ∀ l : List Char,
    (l.dropWhile p).length ≤ l.length
  | [] => Nat.le_refl 0
  | c :: rest => by
    rw [List.dropWhile_cons]
    by_cases hc : p c
    · simp only [hc, if_true]
      exact Nat.le_succ_of_le (dropWhile_len_le p rest)
    · simp [hc]

theorem collapseAux_true_eq : ∀ l : List Char,
    collapseAux true l = collapseAux false (l.dropWhile (fun c => !isSlugChar c))
  | [] => rfl
  | c :: rest => by
    by_cases hc : isSlugChar c
    · simp [collapseAux, hc, List.dropWhile_cons]
    · simp [collapseAux, hc, List.dropWhile_cons, collapseAux_true_eq rest]

theorem alnumRuns_cons_non {c : Char} (rest : List Char) (hc : ¬ isSlugChar c = true) :
    alnumRuns (c :: rest) = alnumRuns rest := by
  cases rest with
  | nil => simp [alnumRuns, hc]
  | cons d t => simp [alnumRuns, hc]

theorem alnumRuns_cons_slug : ∀ (c : Char) (rest : List Char), isSlugChar c = true →
    alnumRuns (c :: rest) =
      (c :: rest.takeWhile isSlugChar) :: alnumRuns (rest.dropWhile isSlugChar)
  | c, [], hc => by simp [alnumRuns, hc]
  | c, d :: rest, hc => by
    by_cases hd : isSlugChar d
    · have ih := alnumRuns_cons_slug d rest hd
      simp only [alnumRuns, hc, if_true, hd, ih, List.takeWhile_cons, List.dropWhile_cons]
    · simp [alnumRuns, hc, hd, List.takeWhile_cons, List.dropWhile_cons]

theorem alnumRuns_dropWhile : ∀ l : List Char,
    alnumRuns (l.dropWhile (fun c => !isSlugChar c)) = alnumRuns l
  | [] => rfl
  | c :: rest => by
    by_cases hc : isSlugChar c
    · simp [List.dropWhile_cons, hc]
    · rw [List.dropWhile_cons]
      simp only [hc]
      rw [alnumRuns_cons_non rest hc]
      simpa using alnumRuns_dropWhile rest

theorem alnumRuns_nil_iff : ∀ l : List Char,
    (alnumRuns l = [] ↔ ∀ c ∈ l, isSlugChar c = false)
  | [] => by simp [alnumRuns]
  | c :: rest => by
    by_cases hc : isSlugChar c
    · rw [alnumRuns_cons_slug c rest hc]
      simp [hc]
    · rw [alnumRuns_cons_non rest hc]
      rw [alnumRuns_nil_iff rest]
      constructor
      · intro h x hx
        rcases List.mem_cons.mp hx with rfl | hx
        · simpa using hc
        · exact h x hx
      · intro h x hx
        exact h x (List.mem_cons_of_mem c hx)

/-- Non-emptiness and slug-only contents of every run produced by `alnumRuns`. -/
def goodRuns (gs : List (List Char)) : Prop :=
  ∀ g ∈ gs, g ≠ [] ∧ ∀ c ∈ g, isSlugChar c = true

theorem alnumRuns_good : ∀ l : List Char, goodRuns (alnumRuns l)
  | [] => by simp [alnumRuns, goodRuns]
  | c :: rest => by
    by_cases hc : isSlugChar c
    · rw [alnumRuns_cons_slug c rest hc]
      intro g hg
      rcases List.mem_cons.mp hg with rfl | hg
      · refine ⟨by simp, ?_⟩
        intro x hx
        rcases List.mem_cons.mp hx with rfl | hx
        · exact hc
        · exact List.mem_takeWhile_imp hx
      · exact alnumRuns_good (rest.dropWhile isSlugChar) g hg
    · rw [alnumRuns_cons_non rest hc]
      exact alnumRuns_good rest
termination_by l => l.length
decreasing_by
  · simp only [List.length_cons]
    have := dropWhile_len_le isSlugChar rest
    omega
  · simp only [List.length_cons]
    omega

theorem joinDash_cons (g : List Char) (gs : List (List Char)) :
    joinDash (g :: gs) =
      g ++ (match gs with | [] => [] | _ :: _ => '-' :: joinDash gs) := by
  cases gs <;> simp [joinDash]

theorem joinDash_cons_head (c : Char) (r : List Char) (rs : List (List Char)) :
    joinDash ((c :: r) :: rs) = c :: joinDash (r :: rs) := by
  cases rs <;> simp [joinDash]

theorem dropWhile_head_false (p : Char → Bool) : ∀ (l : List Char) {c : Char} {cs : List Char},
    l.dropWhile p = c :: cs → p c = false
  | [], _, _, h => by simp at h
  | a :: rest, c, cs, h => by
    rw [List.dropWhile_cons] at h
    by_cases ha : p a
    · rw [if_pos ha] at h
      exact dropWhile_head_false p rest h
    · rw [if_neg ha] at h
      cases h
      simpa using ha

theorem dropWhile_getLast? (p : Char → Bool) : ∀ l : List Char, l.dropWhile p ≠ [] →
    (l.dropWhile p).getLast? = l.getLast?
  | [], h => absurd rfl h
  | c :: rest, h => by
    rw [List.dropWhile_cons] at h ⊢
    by_cases hc : p c
    · rw [if_pos hc] at h ⊢
      have hr : rest ≠ [] := by
        intro hnil
        rw [hnil] at h
        exact h rfl
      obtain ⟨d, t, rfl⟩ := List.exists_cons_of_ne_nil hr
      rw [dropWhile_getLast? p (d :: t) h, List.getLast?_cons_cons]
    · rw [if_neg hc]

/-- First character of a list is outside the slug alphabet. -/
def headNon : List Char → Bool
  | [] => false
  | c :: _ => !isSlugChar c

/-- Last character of a list is outside the slug alphabet. -/
def lastNon (l : List Char) : Bool :=
  match l.getLast? with
  | some c => !isSlugChar c
  | none => false

/-- Leading hyphen emitted by `collapse`. -/
def preDash (l : List Char) : List Char := if headNon l then ['-'] else []

/-- Trailing hyphen emitted by `collapse`. -/
def postDash (l : List Char) : List Char :=
  if alnumRuns l = [] then [] else if lastNon l then ['-'] else []

theorem collapse_decomp : ∀ l : List Char,
    collapseAux false l = preDash l ++ joinDash (alnumRuns l) ++ postDash l
  | [] => rfl
  | c :: rest => by
    by_cases hc : isSlugChar c
    · have hpre : preDash (c :: rest) = [] := by simp [preDash, headNon, hc]
      have hL : collapseAux false (c :: rest) = c :: collapseAux false rest := by
        simp [collapseAux, hc]
      match rest with
      | [] =>
        rw [hL, hpre]
        simp [alnumRuns, hc, joinDash, postDash, lastNon, collapseAux]
      | d :: rest' =>
        by_cases hd : isSlugChar d
        · have ih := collapse_decomp (d :: rest')
          have hpre' : preDash (d :: rest') = [] := by simp [preDash, headNon, hd]
          obtain ⟨r, rs, hr⟩ : ∃ r rs, alnumRuns (d :: rest') = r :: rs :=
            ⟨_, _, alnumRuns_cons_slug d rest' hd⟩
          have hrun : alnumRuns (c :: d :: rest') = (c :: r) :: rs := by
            simp [alnumRuns, hc, hd, hr]
          have hpost : postDash (c :: d :: rest') = postDash (d :: rest') := by
            simp only [postDash, hrun, hr, lastNon, List.getLast?_cons_cons]
            simp
          rw [hL, ih, hpre, hpre', hrun, joinDash_cons_head, hpost, hr]
          simp
        · have ih := collapse_decomp (d :: rest')
          have hpre' : preDash (d :: rest') = ['-'] := by simp [preDash, headNon, hd]
          have hrun : alnumRuns (c :: d :: rest') = [c] :: alnumRuns (d :: rest') := by
            simp [alnumRuns, hc, hd]
          by_cases hnil : alnumRuns (d :: rest') = []
          · have hlast : lastNon (d :: rest') = true := by
              have hall := (alnumRuns_nil_iff (d :: rest')).mp hnil
              obtain ⟨z, hz⟩ : ∃ z, (d :: rest').getLast? = some z := by
                cases h : (d :: rest').getLast? with
                | none => simp at h
                | some z => exact ⟨z, rfl⟩
              have hzmem : z ∈ d :: rest' := by
                obtain ⟨ys, hys⟩ := List.getLast?_eq_some_iff.mp hz
                rw [hys]
                simp
              simp [lastNon, hz, hall z hzmem]
            have hpost : postDash (c :: d :: rest') = ['-'] := by
              simp only [postDash, hrun, hnil, lastNon, List.getLast?_cons_cons]
              simp only [lastNon] at hlast
              simp [hlast]
            have hpost' : postDash (d :: rest') = [] := by simp [postDash, hnil]
            rw [hL, ih, hpre, hpre', hrun, hnil, hpost, hpost']
            simp [joinDash]
          · obtain ⟨r, rs, hr⟩ := List.exists_cons_of_ne_nil hnil
            have hpost : postDash (c :: d :: rest') = postDash (d :: rest') := by
              simp only [postDash, hrun, hr, lastNon, List.getLast?_cons_cons]
              simp
            rw [hL, ih, hpre, hpre', hrun, hpost, hr]
            simp [joinDash_cons, joinDash]
    · have hpre : preDash (c :: rest) = ['-'] := by simp [preDash, headNon, hc]
      have hL : collapseAux false (c :: rest) = '-' :: collapseAux true rest := by
        simp [collapseAux, hc]
      have hL2 := collapseAux_true_eq rest
      have hrun : alnumRuns (c :: rest) = alnumRuns (rest.dropWhile (fun x => !isSlugChar x)) := by
        rw [alnumRuns_cons_non rest hc, alnumRuns_dropWhile rest]
      by_cases hr' : rest.dropWhile (fun x => !isSlugChar x) = []
      · have hnil : alnumRuns (c :: rest) = [] := by rw [hrun, hr']; rfl
        have hpost : postDash (c :: rest) = [] := by simp [postDash, hnil]
        rw [hL, hL2, hr', hpre, hnil, hpost]
        simp [joinDash, collapseAux]
      · obtain ⟨e, t, he⟩ := List.exists_cons_of_ne_nil hr'
        have hse : isSlugChar e = true := by
          have := dropWhile_head_false (fun x => !isSlugChar x) rest he
          simpa using this
        have ih := collapse_decomp (rest.dropWhile (fun x => !isSlugChar x))
        have hpre' : preDash (rest.dropWhile (fun x => !isSlugChar x)) = [] := by
          rw [he]
          simp [preDash, headNon, hse]
        have hrne : rest ≠ [] := by
          intro hnil
          rw [hnil] at hr'
          exact hr' rfl
        obtain ⟨f, rt, rfl⟩ := List.exists_cons_of_ne_nil hrne
        have hlast : lastNon (c :: f :: rt) = lastNon ((f :: rt).dropWhile (fun x => !isSlugChar x)) := by
          simp only [lastNon, List.getLast?_cons_cons]
          rw [dropWhile_getLast? (fun x => !isSlugChar x) (f :: rt) hr']
        have hrunne : alnumRuns ((f :: rt).dropWhile (fun x => !isSlugChar x)) ≠ [] := by
          rw [he, alnumRuns_cons_slug e t hse]
          simp
        have hpost : postDash (c :: f :: rt) = postDash ((f :: rt).dropWhile (fun x => !isSlugChar x)) := by
          simp only [postDash, hrun, hlast]
        rw [hL, hL2, ih, hpre, hpre', hrun, hpost]
        simp
termination_by l => l.length
decreasing_by
  · simp only [List.length_cons]
    omega
  · simp only [List.length_cons]
    omega
  · simp only [List.length_cons]
    have := dropWhile_len_le (fun x => !isSlugChar x) rest
    omega

theorem dropWhile_append_all (p : Char → Bool) : ∀ (a t : List Char),
    (∀ x ∈ a, p x = true) → (a ++ t).dropWhile p = t.dropWhile p
  | [], t, _ => rfl
  | c :: a, t, h => by
    rw [List.cons_append, List.dropWhile_cons, if_pos (h c (by simp))]
    exact dropWhile_append_all p a t (fun x hx => h x (by simp [hx]))

theorem stripEnds_sandwich (p : Char → Bool) (a m b : List Char)
    (ha : ∀ x ∈ a, p x = true) (hb : ∀ x ∈ b, p x = true) (hm : m ≠ [])
    (hhead : ∀ c, m.head? = some c → p c = false)
    (hlast : ∀ c, m.getLast? = some c → p c = false) :
    stripEnds p (a ++ m ++ b) = m := by
  unfold stripEnds
  rw [List.append_assoc, dropWhile_append_all p a (m ++ b) ha]
  obtain ⟨c, m', rfl⟩ := List.exists_cons_of_ne_nil hm
  rw [List.cons_append, List.dropWhile_cons, if_neg (by simp [hhead c rfl])]
  rw [← List.cons_append, List.reverse_append,
    dropWhile_append_all p b.reverse (c :: m').reverse (by simpa using hb)]
  have hrne : (c :: m').reverse ≠ [] := by simp
  obtain ⟨z, r', hz⟩ := List.exists_cons_of_ne_nil hrne
  have hzlast : (c :: m').getLast? = some z := by
    rw [List.getLast?_eq_head?_reverse, hz]
    rfl
  rw [hz, List.dropWhile_cons, if_neg (by simp [hlast z hzlast]), ← hz,
    List.reverse_reverse]

theorem joinDash_ne_nil : ∀ gs : List (List Char), goodRuns gs → gs ≠ [] →
    joinDash gs ≠ []
  | [], _, h => absurd rfl h
  | g :: gs, hg, _ => by
    obtain ⟨x, g', hx⟩ := List.exists_cons_of_ne_nil (hg g (by simp)).1
    rw [joinDash_cons, hx]
    simp

theorem joinDash_head_slug : ∀ (gs : List (List Char)), goodRuns gs →
    ∀ c, (joinDash gs).head? = some c → isSlugChar c = true
  | [], _, c, h => by simp [joinDash] at h
  | g :: gs, hg, c, h => by
    obtain ⟨x, g', hx⟩ := List.exists_cons_of_ne_nil (hg g (by simp)).1
    rw [joinDash_cons, hx, List.cons_append, List.head?_cons] at h
    cases h
    exact (hg g (by simp)).2 c (by rw [hx]; simp)

theorem joinDash_last_slug : ∀ (gs : List (List Char)), goodRuns gs → gs ≠ [] →
    ∀ c, (joinDash gs).getLast? = some c → isSlugChar c = true
  | [], _, h, _, _ => absurd rfl h
  | [g], hg, _, c, h => by
    simp only [joinDash] at h
    obtain ⟨ys, hys⟩ := List.getLast?_eq_some_iff.mp h
    exact (hg g (by simp)).2 c (by rw [hys]; simp)
  | g :: g2 :: gs, hg, _, c, h => by
    have hgood : goodRuns (g2 :: gs) := fun x hx => hg x (by simp [hx])
    have hne : joinDash (g2 :: gs) ≠ [] := joinDash_ne_nil (g2 :: gs) hgood (by simp)
    obtain ⟨y, t, hyt⟩ := List.exists_cons_of_ne_nil hne
    rw [show joinDash (g :: g2 :: gs) = g ++ '-' :: joinDash (g2 :: gs) from rfl,
      List.getLast?_append, hyt, List.getLast?_cons_cons] at h
    have hsome : ∃ z, (y :: t).getLast? = some z := by
      cases hgl : (y :: t).getLast? with
      | none => simp at hgl
      | some z => exact ⟨z, rfl⟩
    obtain ⟨z, hz⟩ := hsome
    rw [hz] at h
    simp only [Option.or_some, Option.some.injEq] at h
    subst h
    exact joinDash_last_slug (g2 :: gs) hgood (by simp) z (by rw [hyt, hz])

theorem joinDash_mem : ∀ gs : List (List Char), goodRuns gs →
    ∀ c ∈ joinDash gs, isSlugChar c = true ∨ c = '-'
  | [], _, c, h => by simp [joinDash] at h
  | [g], hg, c, h => by
    simp only [joinDash] at h
    exact Or.inl ((hg g (by simp)).2 c h)
  | g :: g2 :: gs, hg, c, h => by
    rw [show joinDash (g :: g2 :: gs) = g ++ '-' :: joinDash (g2 :: gs) from rfl] at h
    rcases List.mem_append.mp h with h | h
    · exact Or.inl ((hg g (by simp)).2 c h)
    · rcases List.mem_cons.mp h with rfl | h
      · exact Or.inr rfl
      · exact joinDash_mem (g2 :: gs) (fun x hx => hg x (by simp [hx])) c h

theorem collapse_strip (l : List Char) :
    stripEnds (fun c => c = '-') (collapse l) = joinDash (alnumRuns l) := by
  rw [show collapse l = collapseAux false l from rfl, collapse_decomp l]
  by_cases hnil : alnumRuns l = []
  · rw [hnil]
    have hpost : postDash l = [] := by simp [postDash, hnil]
    rw [hpost]
    by_cases hh : headNon l = true
    · simp only [preDash, hh, if_true]
      rfl
    · simp only [preDash, hh, if_false, Bool.false_eq_true]
      rfl
  · have hgood := alnumRuns_good l
    have hm : joinDash (alnumRuns l) ≠ [] := joinDash_ne_nil _ hgood hnil
    apply stripEnds_sandwich
    · intro x hx
      simp only [preDash] at hx
      by_cases hh : headNon l = true
      · rw [if_pos hh] at hx
        rcases List.mem_cons.mp hx with rfl | hx
        · simp
        · simp at hx
      · rw [if_neg hh] at hx
        simp at hx
    · intro x hx
      simp only [postDash] at hx
      rw [if_neg hnil] at hx
      by_cases hl : lastNon l = true
      · rw [if_pos hl] at hx
        rcases List.mem_cons.mp hx with rfl | hx
        · simp
        · simp at hx
      · rw [if_neg hl] at hx
        simp at hx
    · exact hm
    · intro c hc
      have := joinDash_head_slug (alnumRuns l) hgood c hc
      simpa using slug_ne_dash this
    · intro c hc
      have := joinDash_last_slug (alnumRuns l) hgood hnil c hc
      simpa using slug_ne_dash this

/-! ### The slug pattern -/

theorem noDoubleDash_chain : ∀ l : List Char,
    noDoubleDash l = true ↔ l.Chain' (fun a b => ¬(a = '-' ∧ b = '-'))
  | [] => by simp [noDoubleDash]
  | [c] => by simp [noDoubleDash]
  | c :: d :: rest => by
    rw [List.chain'_cons, ← noDoubleDash_chain (d :: rest)]
    simp only [noDoubleDash, Bool.and_eq_true, Bool.not_eq_true',
      Bool.and_eq_false_iff, decide_eq_true_eq, decide_eq_false_iff_not]
    tauto

theorem chain_of_slug : ∀ m : List Char, (∀ c ∈ m, isSlugChar c = true) →
    m.Chain' (fun a b => ¬(a = '-' ∧ b = '-'))
  | [], _ => List.chain'_nil
  | [c], _ => List.chain'_singleton c
  | c :: d :: rest, h => by
    rw [List.chain'_cons]
    refine ⟨?_, chain_of_slug (d :: rest) (fun x hx => h x (by simp [hx]))⟩
    rintro ⟨hc, _⟩
    exact slug_ne_dash (h c (by simp)) hc

theorem joinDash_chain : ∀ gs : List (List Char), goodRuns gs →
    (joinDash gs).Chain' (fun a b => ¬(a = '-' ∧ b = '-'))
  | [], _ => List.chain'_nil
  | [g], hg => by
    have := chain_of_slug g (hg g (by simp)).2
    simpa [joinDash] using this
  | g :: g2 :: gs, hg => by
    have hgood : goodRuns (g2 :: gs) := fun x hx => hg x (by simp [hx])
    rw [show joinDash (g :: g2 :: gs) = g ++ '-' :: joinDash (g2 :: gs) from rfl,
      List.chain'_append]
    refine ⟨chain_of_slug g (hg g (by simp)).2, ?_, ?_⟩
    · rw [List.chain'_cons']
      refine ⟨?_, joinDash_chain (g2 :: gs) hgood⟩
      intro y hy
      rintro ⟨_, h2⟩
      exact slug_ne_dash (joinDash_head_slug (g2 :: gs) hgood y (Option.mem_def.mp hy)) h2
    · intro x hx y hy
      rintro ⟨hx1, _⟩
      obtain ⟨ys, hys⟩ := List.getLast?_eq_some_iff.mp (Option.mem_def.mp hx)
      exact slug_ne_dash ((hg g (by simp)).2 x (by rw [hys]; simp)) hx1

theorem slugLike_intro (l : List Char)
    (hne : l ≠ [])
    (hall : ∀ c ∈ l, isSlugChar c = true ∨ c = '-')
    (hhead : ∀ c, l.head? = some c → isSlugChar c = true)
    (hlast : ∀ c, l.getLast? = some c → isSlugChar c = true)
    (hchain : l.Chain' (fun a b => ¬(a = '-' ∧ b = '-'))) :
    slugLike (String.mk l) = true := by
  have hdata : (String.mk l).data = l := rfl
  simp only [slugLike, hdata, Bool.and_eq_true]
  obtain ⟨c, rest, rfl⟩ := List.exists_cons_of_ne_nil hne
  refine ⟨⟨⟨⟨by simp, ?_⟩, ?_⟩, ?_⟩, ?_⟩
  · rw [List.all_eq_true]
    intro x hx
    rcases hall x hx with h | h <;> simp [h]
  · simp only [headSlug, List.head?_cons]
    exact hhead c rfl
  · simp only [lastSlug]
    obtain ⟨z, hz⟩ : ∃ z, (c :: rest).getLast? = some z := by
      cases hgl : (c :: rest).getLast? with
      | none => simp at hgl
      | some z => exact ⟨z, rfl⟩
    rw [hz]
    exact hlast z hz
  · exact (noDoubleDash_chain (c :: rest)).mpr hchain

theorem slugLike_elim (s : String) (h : slugLike s = true) :
    s.data ≠ [] ∧ (∀ c ∈ s.data, isSlugChar c = true ∨ c = '-') ∧
    (∀ c, s.data.head? = some c → isSlugChar c = true) ∧
    (∀ c, s.data.getLast? = some c → isSlugChar c = true) ∧
    s.data.Chain' (fun a b => ¬(a = '-' ∧ b = '-')) := by
  simp only [slugLike, Bool.and_eq_true] at h
  obtain ⟨⟨⟨⟨h1, h2⟩, h3⟩, h4⟩, h5⟩ := h
  refine ⟨by simpa using h1, ?_, ?_, ?_, (noDoubleDash_chain s.data).mp h5⟩
  · intro c hc
    have := List.all_eq_true.mp h2 c hc
    simpa using this
  · intro c hc
    simp only [headSlug, hc] at h3
    exact h3
  · intro c hc
    simp only [lastSlug, hc] at h4
    exact h4

theorem slugLike_append_num (s dstr : String)
    (hs : slugLike s = true) (hd : dstr.data ≠ [])
    (hds : ∀ c ∈ dstr.data, isSlugChar c = true) :
    slugLike (s ++ "-" ++ dstr) = true := by
  obtain ⟨h1, h2, h3, h4, h5⟩ := slugLike_elim s hs
  have hdata : (s ++ "-" ++ dstr).data = s.data ++ '-' :: dstr.data := by
    rw [String.data_append, String.data_append]
    simp
  have : s ++ "-" ++ dstr = String.mk (s.data ++ '-' :: dstr.data) := by
    apply String.ext
    rw [hdata]
  rw [this]
  obtain ⟨c, rest, hcr⟩ := List.exists_cons_of_ne_nil h1
  obtain ⟨d0, dr, hdr⟩ := List.exists_cons_of_ne_nil hd
  apply slugLike_intro
  · simp [hcr]
  · intro x hx
    rcases List.mem_append.mp hx with hx | hx
    · exact h2 x hx
    · rcases List.mem_cons.mp hx with rfl | hx
      · exact Or.inr rfl
      · exact Or.inl (hds x hx)
  · intro x hx
    rw [hcr, List.cons_append, List.head?_cons] at hx
    cases hx
    exact h3 c (by rw [hcr]; rfl)
  · intro x hx
    rw [List.getLast?_append] at hx
    obtain ⟨z, hz⟩ : ∃ z, ('-' :: dstr.data).getLast? = some z := by
      cases hgl : ('-' :: dstr.data).getLast? with
      | none => simp at hgl
      | some z => exact ⟨z, rfl⟩
    rw [hz, Option.or_some] at hx
    have hxz : z = x := by injection hx
    have hzlast : dstr.data.getLast? = some z := by
      rw [hdr] at hz ⊢
      rwa [List.getLast?_cons_cons] at hz
    obtain ⟨ys, hys⟩ := List.getLast?_eq_some_iff.mp hzlast
    rw [← hxz]
    exact hds z (by rw [hys]; simp)
  · rw [List.chain'_append]
    refine ⟨h5, ?_, ?_⟩
    · rw [List.chain'_cons']
      refine ⟨?_, chain_of_slug dstr.data hds⟩
      intro y hy
      rintro ⟨_, hy2⟩
      have hyd : d0 = y := by
        rw [hdr, List.head?_cons] at hy
        simpa using hy
      have : isSlugChar y = true := hds y (by rw [hdr, ← hyd]; simp)
      exact slug_ne_dash this hy2
    · intro x hx y hy
      rintro ⟨hx1, _⟩
      exact slug_ne_dash (h4 x (Option.mem_def.mp hx)) hx1

theorem slugLike_base (l : List Char) :
    slugLike (String.mk
      (if stripEnds (fun c => c = '-') (collapse l) = [] then "film".data
       else stripEnds (fun c => c = '-') (collapse l))) = true := by
  rw [collapse_strip l]
  by_cases hnil : joinDash (alnumRuns l) = []
  · rw [if_pos hnil]
    decide
  · rw [if_neg hnil]
    have hgood := alnumRuns_good l
    have hrne : alnumRuns l ≠ [] := by
      intro h
      rw [h] at hnil
      exact hnil rfl
    apply slugLike_intro
    · exact hnil
    · exact joinDash_mem (alnumRuns l) hgood
    · exact joinDash_head_slug (alnumRuns l) hgood
    · exact joinDash_last_slug (alnumRuns l) hgood hrne
    · exact joinDash_chain (alnumRuns l) hgood

theorem slugLike_slugify (t : String) (y : Int) (hy : 0 ≤ y) :
    slugLike (slugify t y) = true := by
  by_cases hz : y = 0
  · subst hz
    simpa [slugify] using slugLike_base ((asciiFold t).map asciiLower)
  · match y, hy, hz with
    | .ofNat n, _, hz =>
      have hn : n ≠ 0 := by
        intro h
        exact hz (by simp [h])
      have hbase := slugLike_base ((asciiFold t).map asciiLower)
      have : slugify t (.ofNat n) =
          String.mk
            (if stripEnds (fun c => c = '-') (collapse ((asciiFold t).map asciiLower)) = []
             then "film".data
             else stripEnds (fun c => c = '-') (collapse ((asciiFold t).map asciiLower))) ++
          "-" ++ pyNatRepr n := by
        simp [slugify, pyIntRepr, hz, hn]
      rw [this]
      exact slugLike_append_num _ (pyNatRepr n) hbase (pyNatRepr_data_ne_nil n)
        (pyNatRepr_all_slug n)

/-! ### Pipeline step and fold invariants -/

/-- Base slug of an output record, recomputable from its stored fields. -/
def baseOf (r : OutputRecord) : String := slugify r.title r.releaseYear

theorem step_ok_some {c : String → Nat} {e : Entry} {c' : String → Nat} {r : OutputRecord}
    (h : step c e = .ok (c', some r)) :
    r.releaseYear = parse_int e.yearProduced ∧
    r.registryYear = parse_int e.yearAdded ∧
    parse_directors e.director = .ok r.directors ∧
    c' = (fun s => if s = baseOf r then c (baseOf r) + 1 else c s) ∧
    r.slug = (if c (baseOf r) = 0 then baseOf r
              else baseOf r ++ "-" ++ pyNatRepr (c (baseOf r) + 1)) := by
  unfold step at h
  split at h
  · simp at h
  · split at h
    · simp at h
    · split at h
      · simp at h
      · simp only [Except.ok.injEq, Prod.mk.injEq, Option.some.injEq] at h
        obtain ⟨hc', hr⟩ := h
        subst hc'
        subst hr
        rename_i hd
        exact ⟨rfl, rfl, hd ▸ rfl, rfl, rfl⟩

theorem step_ok_none {c : String → Nat} {e : Entry} {c' : String → Nat}
    (h : step c e = .ok (c', none)) : c' = c := by
  unfold step at h
  split at h
  · simp at h
  · split at h
    · simp only [Except.ok.injEq, Prod.mk.injEq] at h
      exact h.1.symm
    · split at h
      · simp at h
      · simp at h

theorem step_skip {c : String → Nat} {e : Entry} (h : resolveTitle e = .ok ("")) :
    step c e = .ok (c, none) := by
  unfold step
  rw [h]
  simp

theorem runFold_cons_err {c : String → Nat} {e : Entry} {m : String} {rest : List Entry}
    (hs : step c e = .error m) : runFold (e :: rest) c = .error m := by
  simp only [runFold]
  rw [hs]

theorem runFold_cons_none {c c' : String → Nat} {e : Entry} {rest : List Entry}
    (hs : step c e = .ok (c', none)) : runFold (e :: rest) c = runFold rest c' := by
  simp only [runFold]
  rw [hs]

theorem runFold_cons_some {c c' : String → Nat} {e : Entry} {r : OutputRecord}
    {rest : List Entry} (hs : step c e = .ok (c', some r)) :
    runFold (e :: rest) c =
      (match runFold rest c' with
       | .error m => .error m
       | .ok (recs, cF) => .ok (r :: recs, cF)) := by
  simp only [runFold]
  rw [hs]

theorem runFold_skip_middle (e : Entry) (he : resolveTitle e = .ok ("")) :
    ∀ (pre post : List Entry) (c : String → Nat),
      runFold (pre ++ e :: post) c = runFold (pre ++ post) c
  | [], post, c => by
    rw [List.nil_append, List.nil_append]
    exact runFold_cons_none (step_skip he)
  | a :: pre, post, c => by
    rw [List.cons_append, List.cons_append]
    cases hs : step c a with
    | error m => rw [runFold_cons_err hs, runFold_cons_err hs]
    | ok p =>
      obtain ⟨c', op⟩ := p
      cases op with
      | none =>
        rw [runFold_cons_none hs, runFold_cons_none hs]
        exact runFold_skip_middle e he pre post c'
      | some r =>
        rw [runFold_cons_some hs, runFold_cons_some hs,
          runFold_skip_middle e he pre post c']

theorem runFold_slug_spec : ∀ (es : List Entry) (c₀ c₁ : String → Nat)
    (recs : List OutputRecord), runFold es c₀ = .ok (recs, c₁) →
    ∀ j (hj : j < recs.length),
      (recs.get ⟨j, hj⟩).slug =
        (if c₀ (baseOf (recs.get ⟨j, hj⟩)) +
            ((recs.take j).filter
              (fun q => baseOf q = baseOf (recs.get ⟨j, hj⟩))).length = 0
         then baseOf (recs.get ⟨j, hj⟩)
         else baseOf (recs.get ⟨j, hj⟩) ++ "-" ++
           pyNatRepr (c₀ (baseOf (recs.get ⟨j, hj⟩)) +
             ((recs.take j).filter
               (fun q => baseOf q = baseOf (recs.get ⟨j, hj⟩))).length + 1))
  | [], c₀, c₁, recs, h => by
    simp only [runFold, Except.ok.injEq, Prod.mk.injEq] at h
    obtain ⟨h1, -⟩ := h
    subst h1
    intro j hj
    simp at hj
  | e :: rest, c₀, c₁, recs, h => by
    cases hs : step c₀ e with
    | error m => rw [runFold_cons_err hs] at h; simp at h
    | ok p =>
      obtain ⟨c', op⟩ := p
      cases op with
      | none =>
        rw [runFold_cons_none hs] at h
        have hc := step_ok_none hs
        subst hc
        exact runFold_slug_spec rest c' c₁ recs h
      | some r =>
        rw [runFold_cons_some hs] at h
        cases hr : runFold rest c' with
        | error m => rw [hr] at h; simp at h
        | ok q =>
          obtain ⟨recs', cF⟩ := q
          rw [hr] at h
          simp only [Except.ok.injEq, Prod.mk.injEq] at h
          obtain ⟨hrecs, hcF⟩ := h
          subst hrecs
          obtain ⟨hry, hra, hdir, hc', hslug⟩ := step_ok_some hs
          intro j hj
          match j with
          | 0 =>
            simpa using hslug
          | j' + 1 =>
            have hj' : j' < recs'.length := by simpa using hj
            have ih := runFold_slug_spec rest c' cF recs' hr j' hj'
            have hget : (r :: recs').get ⟨j' + 1, hj⟩ = recs'.get ⟨j', hj'⟩ := rfl
            have htake : (r :: recs').take (j' + 1) = r :: recs'.take j' := rfl
            have hc'app : c' (baseOf (recs'.get ⟨j', hj'⟩)) =
                if baseOf (recs'.get ⟨j', hj'⟩) = baseOf r then c₀ (baseOf r) + 1
                else c₀ (baseOf (recs'.get ⟨j', hj'⟩)) := by rw [hc']
            have hcount : c' (baseOf (recs'.get ⟨j', hj'⟩)) +
                (List.filter (fun q => baseOf q = baseOf (recs'.get ⟨j', hj'⟩))
                  (recs'.take j')).length =
                c₀ (baseOf (recs'.get ⟨j', hj'⟩)) +
                (List.filter (fun q => baseOf q = baseOf (recs'.get ⟨j', hj'⟩))
                  (r :: recs'.take j')).length := by
              rw [hc'app, List.filter_cons]
              by_cases hbb : baseOf r = baseOf (recs'.get ⟨j', hj'⟩)
              · rw [if_pos hbb.symm, if_pos (by simpa using hbb), List.length_cons, hbb]
                omega
              · rw [if_neg (fun hEq => hbb hEq.symm), if_neg (by simpa using hbb)]
            rw [hget, ih, htake, hcount]

theorem disamb_ne {b : String} {m n : Nat} (hmn : m ≠ n) :
    (if m = 0 then b else b ++ "-" ++ pyNatRepr (m + 1)) ≠
    (if n = 0 then b else b ++ "-" ++ pyNatRepr (n + 1)) := by
  have key : ∀ k : Nat, b ≠ b ++ "-" ++ pyNatRepr (k + 1) := by
    intro k hEq
    have hd := congrArg String.data hEq
    rw [String.data_append, String.data_append] at hd
    have hlen := congrArg List.length hd
    simp only [List.length_append] at hlen
    have h1 : ("-".data).length = 1 := rfl
    rw [h1] at hlen
    omega
  by_cases hm : m = 0 <;> by_cases hn : n = 0
  · exact absurd (hm.trans hn.symm) hmn
  · rw [if_pos hm, if_neg hn]
    exact key n
  · rw [if_neg hm, if_pos hn]
    exact fun hEq => key m hEq.symm
  · rw [if_neg hm, if_neg hn]
    intro hEq
    have hd := congrArg String.data hEq
    rw [String.data_append, String.data_append, String.data_append,
      String.data_append, List.append_assoc, List.append_assoc] at hd
    have hd2 := List.append_cancel_left hd
    have hd3 := List.append_cancel_left hd2
    have := pyNatRepr_inj (String.ext hd3)
    omega

theorem filter_take_lt {recs : List OutputRecord} {i j : Nat} (hi : i < recs.length)
    (hij : i < j) (b : String)
    (hbi : baseOf (recs.get ⟨i, hi⟩) = b) :
    ((recs.take i).filter (fun q => baseOf q = b)).length <
    ((recs.take j).filter (fun q => baseOf q = b)).length := by
  have h1 : recs.take (i + 1) = recs.take i ++ [recs.get ⟨i, hi⟩] := by
    rw [List.take_succ]
    congr 1
    rw [List.getElem?_eq_getElem hi]
    simp [List.get_eq_getElem]
  have h2 : ((recs.take (i + 1)).filter (fun q => baseOf q = b)).length =
      ((recs.take i).filter (fun q => baseOf q = b)).length + 1 := by
    rw [h1, List.filter_append]
    have hbi' : baseOf recs[i] = b := by
      rw [List.get_eq_getElem] at hbi
      exact hbi
    simp [hbi']
  have h3 : recs.take (i + 1) <+: recs.take j := by
    have h := List.take_prefix (i + 1) (recs.take j)
    rw [List.take_take, Nat.min_eq_left (by omega)] at h
    exact h
  have h4 := (h3.filter (fun q => baseOf q = b)).length_le
  omega

theorem convertMovies_ok {es : List Entry} {recs : List OutputRecord}
    (h : convertMovies es = .ok recs) :
    ∃ c₁, runFold es (fun _ => 0) = .ok (recs, c₁) := by
  unfold convertMovies at h
  cases hr : runFold es (fun _ => 0) with
  | error m => rw [hr] at h; simp [Except.map] at h
  | ok p =>
    obtain ⟨rs, c⟩ := p
    rw [hr] at h
    simp only [Except.map, Except.ok.injEq] at h
    exact ⟨c, by rw [h]⟩

theorem runFold_slugLike : ∀ (es : List Entry) (c₀ c₁ : String → Nat)
    (recs : List OutputRecord), runFold es c₀ = .ok (recs, c₁) →
    (∀ e ∈ es, 0 ≤ parse_int e.yearProduced) →
    ∀ r ∈ recs, slugLike r.slug = true
  | [], c₀, c₁, recs, h, _ => by
    simp only [runFold, Except.ok.injEq, Prod.mk.injEq] at h
    obtain ⟨h1, -⟩ := h
    subst h1
    simp
  | e :: rest, c₀, c₁, recs, h, hy => by
    cases hs : step c₀ e with
    | error m => rw [runFold_cons_err hs] at h; simp at h
    | ok p =>
      obtain ⟨c', op⟩ := p
      cases op with
      | none =>
        rw [runFold_cons_none hs] at h
        exact runFold_slugLike rest c' c₁ recs h (fun x hx => hy x (by simp [hx]))
      | some r =>
        rw [runFold_cons_some hs] at h
        cases hr : runFold rest c' with
        | error m => rw [hr] at h; simp at h
        | ok q =>
          obtain ⟨recs', cF⟩ := q
          rw [hr] at h
          simp only [Except.ok.injEq, Prod.mk.injEq] at h
          obtain ⟨hrecs, -⟩ := h
          subst hrecs
          obtain ⟨hry, -, -, -, hslug⟩ := step_ok_some hs
          intro x hx
          rcases List.mem_cons.mp hx with rfl | hx
          · have hy0 : 0 ≤ x.releaseYear := by
              rw [hry]
              exact hy e (by simp)
            have hbase : slugLike (baseOf x) = true :=
              slugLike_slugify x.title x.releaseYear hy0
            rw [hslug]
            by_cases h0 : c₀ (baseOf x) = 0
            · rw [if_pos h0]
              exact hbase
            · rw [if_neg h0]
              exact slugLike_append_num (baseOf x) (pyNatRepr (c₀ (baseOf x) + 1)) hbase
                (pyNatRepr_data_ne_nil _) (pyNatRepr_all_slug _)
          · exact runFold_slugLike rest c' cF recs' hr
              (fun z hz => hy z (by simp [hz])) x hx

/-! ### Remaining small helpers for the claims -/

theorem parse_directors_falsy {v : JValue} (hv : v.truthy = false) :
    parse_directors v = .ok [] := by
  unfold parse_directors
  rw [hv]
  simp only [Bool.false_eq_true, if_false]
  rfl

theorem joinSingleton (x : String) : String.join [x] = x := by
  apply String.ext
  show ("" ++ x).data = x.data
  rw [String.data_append]
  rfl

theorem mapFilter_eq_filterMap (f : List Char → List Char) : ∀ ps : List (List Char),
    ((ps.map f).filter (fun part => !part.isEmpty)).map String.mk =
    ps.filterMap (fun piece =>
      let t := f piece
      if t.isEmpty then none else some (String.mk t))
  | [] => rfl
  | p :: ps => by
    simp only [List.map_cons, List.filter_cons, List.filterMap_cons]
    by_cases hp : (f p).isEmpty
    · simp [hp, mapFilter_eq_filterMap f ps]
    · simp [hp, mapFilter_eq_filterMap f ps]

/-! ### Claims -/

/-- C4: `slugify` equals the spec's 4-step reference algorithm (NFKD-fold,
hyphenation of non-alnum runs with outer trim, `"film"` fallback, year suffix
iff the year is non-zero), with the spec's concrete examples, and a title
that ASCII-folds to empty yields `"film"` or `"film-{year}"`. -/
theorem c4_slugify_matches_spec :
    (∀ t y, slugify t y = slugifySpec t y) ∧
    slugify ("The Movie!!") 2020 = "the-movie-2020" ∧
    slugify ("The Movie!!") 0 = "the-movie" ∧
    (∀ t y, asciiFold t = [] →
      slugify t y = (if y = 0 then "film" else "film-" ++ pyIntRepr y)) := by
  refine ⟨?_, rfl, rfl, ?_⟩
  · intro t y
    simp only [slugify, slugifySpec]
    rw [collapse_strip ((asciiFold t).map asciiLower)]
  · intro t y hfold
    have h0 : (asciiFold t).map asciiLower = [] := by rw [hfold]; rfl
    simp only [slugify, h0]
    rfl

/-- Witness for C4 at concrete inputs: a Cyrillic-only title folds to the
`"film"` fallback, and the spec algorithm agrees on the example title. -/
theorem c4_slugify_matches_spec_witness :
    slugify ("Ж") 1975 = "film-1975" ∧
    slugify ("The Movie!!") 2020 = slugifySpec ("The Movie!!") 2020 := by
  constructor
  · have h := c4_slugify_matches_spec.2.2.2 ("Ж") 1975 (by decide)
    rw [h]
    decide
  · exact c4_slugify_matches_spec.1 ("The Movie!!") 2020

/-- C8: `transliterate` replaces each character through the fixed table
(char-by-char), passes unmapped characters through, elides soft/hard signs,
and maps the example name as expected. -/
theorem c8_transliterate_contract :
    (∀ s, transliterate s = String.join (s.data.map translitChar)) ∧
    (∀ p ∈ CYRILLIC_MAP, transliterate (String.singleton p.1) = p.2) ∧
    (∀ c, CYRILLIC_MAP.lookup c = none →
      transliterate (String.singleton c) = String.singleton c) ∧
    transliterate ("") = "" ∧
    transliterate ("ЪъЬь") = "" ∧
    transliterate ("Пётр Иванов") = "Pyotr Ivanov" := by
  have hjoin : ∀ s, transliterate s = String.join (s.data.map translitChar) := by
    intro s
    by_cases hs : s = ""
    · subst hs
      rfl
    · simp [transliterate, hs]
  refine ⟨hjoin, by decide, ?_, rfl, rfl, rfl⟩
  intro c hc
  rw [hjoin (String.singleton c)]
  show String.join [translitChar c] = String.singleton c
  rw [joinSingleton, translitChar, hc]

/-- Witness for C8 at concrete characters: a mapped table entry, an unmapped
ASCII character, and the character-level decomposition of an example. -/
theorem c8_transliterate_contract_witness :
    transliterate (String.singleton 'Ж') = "Zh" ∧
    transliterate (String.singleton 'Q') = String.singleton 'Q' ∧
    transliterate ("Пётр") = String.join (("Пётр").data.map translitChar) :=
  ⟨c8_transliterate_contract.2.1 ('Ж', "Zh") (by decide),
   c8_transliterate_contract.2.2.1 'Q' rfl,
   c8_transliterate_contract.1 ("Пётр")⟩

/-- C6 fails as stated: the reference algorithm strips only *trailing*
periods, but the source strips `.` from both ends, so on the piece `".John"`
the code yields `"John"` while the claimed algorithm keeps `".John"`. -/
theorem c6_counterexample :
    parse_directors_str (".John") = ["John"] ∧
    specParseDirectors (".John") = [".John"] ∧
    parse_directors_str (".John") ≠ specParseDirectors (".John") :=
  ⟨rfl, rfl, by decide⟩

/-- C6 (amended): `parse_directors` on a string equals the reference
algorithm with periods stripped from both ends of each piece (transliterate,
normalize the five delimiters to commas, split, strip whitespace and periods
from both ends, drop empties, preserve order), and the mixed-script example
splits as expected. -/
theorem c6_parse_directors_both_ends :
    (∀ s, parse_directors_str s = specParseDirectorsAmended s) ∧
    parse_directors (.jstr ("Иван Петров & John Smith")) =
      .ok (["Ivan Petrov", "John Smith"]) := by
  refine ⟨?_, rfl⟩
  intro s
  have hfun : (fun c => isDirWS c || c = '.') = dirStripChar := by
    funext c
    simp only [isDirWS, dirStripChar, Bool.or_assoc]
  simp only [parse_directors_str, specParseDirectorsAmended, hfun]
  exact mapFilter_eq_filterMap _ _

/-- Witness for the amended C6 at a director string with leading and
trailing periods. -/
theorem c6_parse_directors_both_ends_witness :
    parse_directors_str ("A & .B.") = specParseDirectorsAmended ("A & .B.") :=
  c6_parse_directors_both_ends.1 ("A & .B.")

/-- Input whose base slugs collide across disambiguation: a record whose base
slug is literally `echo-2019-2` followed by two `Echo`/2019 records. -/
def c1badInput : List Entry :=
  [⟨.jstr ("Echo 2019 2"), .jnull, .jnull, .jnull, .jnull⟩,
   ⟨.jstr ("Echo"), .jnull, .jstr ("2019"), .jnull, .jnull⟩,
   ⟨.jstr ("Echo"), .jnull, .jstr ("2019"), .jnull, .jnull⟩]

/-- C1 fails as stated: this run emits the slug `echo-2019-2` twice, because
the counter scheme only separates records sharing the same base slug. -/
theorem c1_counterexample :
    slugsOf c1badInput = ["echo-2019-2", "echo-2019", "echo-2019-2"] ∧
    ¬ (slugsOf c1badInput).Pairwise (fun a b => a ≠ b) :=
  ⟨rfl, by decide⟩

/-- C1 (amended): any two output records of one run with the same base slug
receive distinct slugs; cross-base collisions remain possible. -/
theorem c1_per_base_slug_unique :
    ∀ (es : List Entry) (recs : List OutputRecord), convertMovies es = .ok recs →
    ∀ i j (hi : i < recs.length) (hj : j < recs.length), i < j →
    baseOf (recs.get ⟨i, hi⟩) = baseOf (recs.get ⟨j, hj⟩) →
    (recs.get ⟨i, hi⟩).slug ≠ (recs.get ⟨j, hj⟩).slug := by
  intro es recs h i j hi hj hij hbase
  obtain ⟨c₁, hrun⟩ := convertMovies_ok h
  have hi' := runFold_slug_spec es (fun _ => 0) c₁ recs hrun i hi
  have hj' := runFold_slug_spec es (fun _ => 0) c₁ recs hrun j hj
  simp only [Nat.zero_add] at hi' hj'
  rw [hbase] at hi'
  have hlt := filter_take_lt hi hij (baseOf (recs.get ⟨j, hj⟩)) hbase
  rw [hi', hj']
  exact disamb_ne (by omega)

/-- Entry used by the C1 witness. -/
def c1Echo : Entry := ⟨.jstr ("Echo"), .jnull, .jstr ("2019"), .jnull, .jnull⟩

/-- Witness for the amended C1: the two `Echo`/2019 records share a base slug
and get distinct slugs. -/
theorem c1_per_base_slug_unique_witness :
    ((recsOf [c1Echo, c1Echo]).get ⟨0, by decide⟩).slug ≠
    ((recsOf [c1Echo, c1Echo]).get ⟨1, by decide⟩).slug :=
  c1_per_base_slug_unique [c1Echo, c1Echo] (recsOf [c1Echo, c1Echo]) rfl 0 1
    (by decide) (by decide) (by decide) (by decide)

/-- Input with a negative parseable `yearProduced`. -/
def c2badInput : List Entry := [⟨.jstr ("X"), .jnull, .jstr ("-5"), .jnull, .jnull⟩]

/-- C2 fails as stated: `"-5"` parses to `-5`, so the output `releaseYear`
can be negative. -/
theorem c2_counterexample :
    ¬ (∀ r ∈ recsOf c2badInput, 0 ≤ r.releaseYear) := by decide

/-- C2 (amended): the year fields are integers obtained by `parse_int`
(`int(str(value))`, 0 on failure), identically for `yearProduced` and
`yearAdded`; `parseInt` yields 0 on `"abc"`, null/omitted, and 2005 on
`"2005"`; negative parseable strings produce negative years. -/
theorem c2_year_fields :
    parse_int (.jstr ("abc")) = 0 ∧ parse_int .jnull = 0 ∧
    parse_int (.jstr ("2005")) = 2005 ∧
    ∀ (c : String → Nat) (e : Entry) (c' : String → Nat) (r : OutputRecord),
      step c e = .ok (c', some r) →
      r.releaseYear = parse_int e.yearProduced ∧
      r.registryYear = parse_int e.yearAdded := by
  refine ⟨rfl, rfl, rfl, ?_⟩
  intro c e c' r h
  obtain ⟨h1, h2, -, -, -⟩ := step_ok_some h
  exact ⟨h1, h2⟩

/-- Entry used by the C2 witness. -/
def c2wEntry : Entry := ⟨.jstr ("X"), .jnull, .jstr ("2005"), .jnull, .jnull⟩

/-- Counter state after the C2 witness entry is processed. -/
def c2wCounts : String → Nat := fun s => if s = "x-2005" then 1 else 0

/-- Record produced from the C2 witness entry. -/
def c2wRec : OutputRecord :=
  ⟨"x-2005", "X", 2005, 0, [], [], 0, [], "", "", "", "", ""⟩

/-- Witness for the amended C2 at a concrete record. -/
theorem c2_year_fields_witness :
    c2wRec.releaseYear = parse_int c2wEntry.yearProduced ∧
    c2wRec.registryYear = parse_int c2wEntry.yearAdded :=
  c2_year_fields.2.2.2 (fun _ => 0) c2wEntry c2wCounts c2wRec rfl

/-- Input whose director field is a truthy number. -/
def c3badInput : List Entry := [⟨.jstr ("X"), .jnull, .jnull, .jnull, .jint 7⟩]

/-- C3 fails as stated: a numeric director value allowed by the input
interface makes the run raise (`7 .translate` does not exist) instead of
yielding an empty sequence. -/
theorem c3_counterexample :
    convertMovies c3badInput = .error ("AttributeError: translate") := rfl

/-- C3 (amended): for a director value that is absent, null, or otherwise
falsy, `parse_directors` never fails and yields the empty sequence, and the
record mapper stores an empty `directors` list; only truthy non-string
values raise. -/
theorem c3_falsy_director_safe :
    (∀ v : JValue, v.truthy = false → parse_directors v = .ok []) ∧
    (∀ (c : String → Nat) (e : Entry) (c' : String → Nat) (r : OutputRecord),
      step c e = .ok (c', some r) → e.director.truthy = false →
      r.directors = []) := by
  constructor
  · intro v hv
    exact parse_directors_falsy hv
  · intro c e c' r h hv
    obtain ⟨-, -, hdir, -, -⟩ := step_ok_some h
    have h0 := parse_directors_falsy hv
    rw [h0] at hdir
    injection hdir with hdir
    exact hdir.symm

/-- Witness for the amended C3 at concrete falsy director values. -/
theorem c3_falsy_director_safe_witness :
    parse_directors (.jint 0) = .ok [] ∧ parse_directors .jnull = .ok [] :=
  ⟨c3_falsy_director_safe.1 (.jint 0) rfl, c3_falsy_director_safe.1 .jnull rfl⟩

/-- Entry used by C5: title `Echo`, year 2019. -/
def c5Echo : Entry := ⟨.jstr ("Echo"), .jnull, .jstr ("2019"), .jnull, .jnull⟩

/-- C5: slug disambiguation follows the occurrence-counter scheme in input
order starting from empty counters: a record whose base slug has N earlier
occurrences among the outputs gets the base slug unmodified when N = 0 and
`{base}-{N+1}` otherwise; two `Echo`/2019 records yield `echo-2019` then
`echo-2019-2`. -/
theorem c5_occurrence_counter_scheme :
    (∀ (es : List Entry) (recs : List OutputRecord), convertMovies es = .ok recs →
      ∀ j (hj : j < recs.length),
        (recs.get ⟨j, hj⟩).slug =
          (if ((recs.take j).filter
                (fun q => baseOf q = baseOf (recs.get ⟨j, hj⟩))).length = 0
           then baseOf (recs.get ⟨j, hj⟩)
           else baseOf (recs.get ⟨j, hj⟩) ++ "-" ++
             pyNatRepr (((recs.take j).filter
               (fun q => baseOf q = baseOf (recs.get ⟨j, hj⟩))).length + 1))) ∧
    slugsOf [c5Echo, c5Echo] = ["echo-2019", "echo-2019-2"] := by
  constructor
  · intro es recs h j hj
    obtain ⟨c₁, hrun⟩ := convertMovies_ok h
    have hspec := runFold_slug_spec es (fun _ => 0) c₁ recs hrun j hj
    simpa using hspec
  · rfl

/-- Witness for C5: the second `Echo`/2019 record receives `echo-2019-2`. -/
theorem c5_occurrence_counter_scheme_witness :
    ((recsOf [c5Echo, c5Echo]).get ⟨1, by decide⟩).slug = "echo-2019-2" :=
  (c5_occurrence_counter_scheme.1 [c5Echo, c5Echo] (recsOf [c5Echo, c5Echo]) rfl 1
    (by decide)).trans (by decide)

/-- Input with a negative parseable year, which makes the year suffix start
with a second hyphen. -/
def c7badInput : List Entry := [⟨.jstr ("X"), .jnull, .jstr ("-5"), .jnull, .jnull⟩]

/-- C7 fails as stated: the slug `x--5` (from `yearProduced = "-5"`) contains
a double hyphen and so does not match `[a-z0-9]+(-[a-z0-9]+)*(-N)?`. -/
theorem c7_counterexample :
    slugsOf c7badInput = ["x--5"] ∧
    ¬ (∀ s ∈ slugsOf c7badInput, slugLike s = true) :=
  ⟨rfl, by decide⟩

/-- C7 (amended): when every record's parsed release year is non-negative,
every output slug is non-empty and matches `[a-z0-9]+(-[a-z0-9]+)*` (which
covers the `(-N)?` disambiguation suffix). -/
theorem c7_slug_pattern :
    ∀ (es : List Entry) (recs : List OutputRecord), convertMovies es = .ok recs →
    (∀ e ∈ es, 0 ≤ parse_int e.yearProduced) →
    ∀ r ∈ recs, slugLike r.slug = true := by
  intro es recs h hy
  obtain ⟨c₁, hrun⟩ := convertMovies_ok h
  exact runFold_slugLike es (fun _ => 0) c₁ recs hrun hy

/-- Input used by the C7 witness. -/
def c7wInput : List Entry := [⟨.jstr ("Echo!"), .jnull, .jstr ("2019"), .jnull, .jnull⟩]

/-- Witness for the amended C7 at a concrete record. -/
theorem c7_slug_pattern_witness :
    slugLike ((recsOf c7wInput).get ⟨0, by decide⟩).slug = true :=
  c7_slug_pattern c7wInput (recsOf c7wInput) rfl (by decide) _
    (List.get_mem (recsOf c7wInput) 0 (by decide))

/-- C9: an entry whose resolved title is empty is skipped: it produces no
output record, raises no error, leaves the slug counters untouched, and
removing it from the input changes nothing for the other records. -/
theorem c9_skip_empty_title :
    (∀ (c : String → Nat) (e : Entry), resolveTitle e = .ok ("") →
      step c e = .ok (c, none)) ∧
    (∀ (pre post : List Entry) (e : Entry) (c : String → Nat),
      resolveTitle e = .ok ("") →
      runFold (pre ++ e :: post) c = runFold (pre ++ post) c) :=
  ⟨fun _ _ he => step_skip he,
   fun pre post e c he => runFold_skip_middle e he pre post c⟩

/-- Entry with no usable title, used by the C9 witness. -/
def c9Skip : Entry := ⟨.jnull, .jnull, .jstr ("1999"), .jnull, .jnull⟩

/-- Entry used by the C9 witness before the skipped one. -/
def c9A : Entry := ⟨.jstr ("Alpha"), .jnull, .jnull, .jnull, .jnull⟩

/-- Entry used by the C9 witness after the skipped one. -/
def c9B : Entry := ⟨.jstr ("Beta"), .jnull, .jnull, .jnull, .jnull⟩

/-- Witness for C9 at a concrete run. -/
theorem c9_skip_empty_title_witness :
    step (fun _ => 0) c9Skip = .ok ((fun _ => 0), none) ∧
    runFold ([c9A] ++ c9Skip :: [c9B]) (fun _ => 0) =
      runFold ([c9A] ++ [c9B]) (fun _ => 0) :=
  ⟨c9_skip_empty_title.1 (fun _ => 0) c9Skip rfl,
   c9_skip_empty_title.2 [c9A] [c9B] c9Skip (fun _ => 0) rfl⟩

/-- C10: the `or`-fallback selects `name` only when `originalName` is falsy
(absent, null, empty string, 0, false); a whitespace-only `originalName` is
truthy, gets selected, trims to empty, and the record is skipped even when
`name` holds a valid title. -/
theorem c10_whitespace_original_name :
    (∀ e : Entry, e.originalName.truthy = true →
      selectTitleValue e = e.originalName) ∧
    (∀ (c : String → Nat) (e : Entry) (s : String), e.originalName = .jstr s →
      s ≠ "" → s.data.all isPyWS = true → step c e = .ok (c, none)) := by
  constructor
  · intro e h
    unfold selectTitleValue
    rw [if_pos h]
  · intro c e s hon hne hws
    apply step_skip
    have htr : e.originalName.truthy = true := by
      rw [hon]
      simpa [JValue.truthy] using hne
    unfold resolveTitle
    rw [show selectTitleValue e = .jstr s by rw [selectTitleValue, if_pos htr, hon]]
    have hstrip : stripEnds isPyWS s.data = [] := by
      unfold stripEnds
      rw [List.dropWhile_eq_nil_iff.mpr (fun x hx => List.all_eq_true.mp hws x hx)]
      rfl
    show Except.ok (String.mk (stripEnds isPyWS s.data)) = Except.ok ""
    rw [hstrip]

/-- Entry with whitespace-only `originalName` and a valid `name`, used by the
C10 witness. -/
def c10Entry : Entry := ⟨.jstr ("Real Title"), .jstr (" "), .jnull, .jnull, .jnull⟩

/-- Witness for C10 at a concrete entry: the record is skipped even though
`name` is non-empty. -/
theorem c10_whitespace_original_name_witness :
    selectTitleValue c10Entry = c10Entry.originalName ∧
    step (fun _ => 0) c10Entry = .ok ((fun _ => 0), none) :=
  ⟨c10_whitespace_original_name.1 c10Entry rfl,
   c10_whitespace_original_name.2 (fun _ => 0) c10Entry (" ") rfl (by decide) (by decide)⟩
